import Mathlib

/-!
Verification of the expression-interpreter core of the repository
(`behavioural-patterns/interpreter-pattern.py`, with its twin in `test.py`)
against its natural-language specification.

The file embeds, as executable Lean functions, the three pieces of the
source that the claims are about:

* the regex-split `ExpressionProcessor.calculate` (the "soft-fail"
  restricted-grammar variant, lines 248-303 of the interpreter file),
* the parenthesized-grammar `lex` / `parse` / `BinaryExpression.value`
  (lines 25-140), and
* the first, token-list `ExpressionProcessor.calculate` (lines 183-226),
  needed to compare the two near-duplicate implementations.

Variable environments (`self.variables`, a Python dict populated by the
caller) are modelled as association lists passed as an argument.
-/

namespace Interp

/-! ## The regex-split `ExpressionProcessor.calculate` (soft-fail variant)

Source: `interpreter-pattern.py` lines 233-303 (`megasplit` and the second
`ExpressionProcessor`). -/

/-- A character matched by the regex character class `[+-]`. -/
def isOpChar (c : Char) : Bool := c = '+' || c = '-'

/-- Model of `megasplit('(?<=[+-])', string)` (source lines 237-243), on the
character list of the string.  The zero-width look-behind pattern matches at
every position immediately preceded by a `+` or `-`, so `megasplit` cuts the
string right after every occurrence of an operator character, keeping the
operator at the end of the preceding piece, e.g.
`"1+23+456" -> ["1+", "23+", "456"]`.  On the empty string `re.finditer`
finds no match and the result is the single piece `""`. -/
def megasplit : List Char → List (List Char)
  | [] => [[]]
  | c :: cs =>
    if isOpChar c then [c] :: megasplit cs
    else
      match megasplit cs with
      | [] => [[c]]
      | p :: ps => (c :: p) :: ps

/-- Numeric value of a decimal digit character. -/
def digitVal (c : Char) : Nat := c.toNat - 48

/-- Value of a digit-character list read in base 10, most significant first. -/
def digitsVal (cs : List Char) : Nat := cs.foldl (fun a c => 10 * a + digitVal c) 0

/-- Model of Python's `int(first)` on the strings this code feeds it: `some`
of the base-10 value on a non-empty all-digit string, `none` (a raised
`ValueError`) otherwise.  (Python's `int` additionally tolerates surrounding
whitespace, a leading sign and underscore digit separators; no input a claim
is about contains those, and the strings fed here can never contain a sign
because `megasplit`/`re.split` have already cut at `+`/`-`.) -/
def pyInt (cs : List Char) : Option Int :=
  if cs.isEmpty then none
  else if cs.all Char.isDigit then some (Int.ofNat (digitsVal cs))
  else none

/-- Lookup in the caller-populated `self.variables` dict, modelled as an
association list (the claims never use a key twice). -/
def lookupVar (vars : List (String × Int)) (k : String) : Option Int :=
  (vars.find? (fun p => p.1 = k)).map (·.2)

/-- The `NextOp` enum nested in the second `ExpressionProcessor`. -/
inductive NextOp where
  | PLUS
  | MINUS
deriving DecidableEq

/-- Model of `re.split('[\+\-]', part)[0]` (source line 272-273): the prefix
of `part` up to the first operator character. -/
def firstSeg (part : List Char) : List Char := part.takeWhile (fun c => !isOpChar c)

/-- The value resolution for one `part` (source lines 276-283): try
`int(first)`; on `ValueError`, accept a single-character identifier that is a
key of `variables`; everything else makes the whole call `return 0`,
signalled here by `none`. -/
def partValue (vars : List (String × Int)) (part : List Char) : Option Int :=
  match pyInt (firstSeg part) with
  | some v => some v
  | none =>
    if (firstSeg part).length = 1 then lookupVar vars (String.mk (firstSeg part))
    else none

/-- Update of the accumulator `current` by `value` under the pending operator
`next_op` (source lines 286-291). -/
def applyOp (next_op : Option NextOp) (current value : Int) : Int :=
  match next_op with
  | none => value
  | some .PLUS => current + value
  | some .MINUS => current - value

/-- The pending operator for the following part, from
`part.endswith('+') / part.endswith('-')` (source lines 294-301). -/
def nextOpOf (part : List Char) : Option NextOp :=
  match part.getLast? with
  | some c => if c = '+' then some .PLUS else if c = '-' then some .MINUS else none
  | none => none

/-- The `for part in parts` loop of the second `calculate` (source lines
270-301), with the accumulator `current` and pending operator `next_op`
threaded; a failed resolution is the early `return 0`. -/
def calcLoop (vars : List (String × Int)) :
    List (List Char) → Int → Option NextOp → Int
  | [], current, _ => current
  | part :: rest, current, next_op =>
    match partValue vars part with
    | none => 0
    | some value => calcLoop vars rest (applyOp next_op current value) (nextOpOf part)

/-- The second (regex-split) `ExpressionProcessor.calculate` (source lines
256-303). -/
def calculate (vars : List (String × Int)) (expression : String) : Int :=
  calcLoop vars (megasplit expression.data) 0 none

/-! ## Decimal strings

Model of Python's `str(a)` for a non-negative integer `a`, needed to state
the spec properties `calculate(str(a), {}) == a`,
`calculate(f"{a}+{b}", {}) == a + b` and `calculate(f"{a}-{b}", {}) == a - b`. -/

/-- The decimal digit character for `d` (`d ≥ 9` is clamped; only `d < 10`
is ever used). -/
def digitChar : Nat → Char
  | 0 => '0' | 1 => '1' | 2 => '2' | 3 => '3' | 4 => '4'
  | 5 => '5' | 6 => '6' | 7 => '7' | 8 => '8' | _ => '9'

/-- The decimal digit characters of `n`, most significant first. -/
def natDigits (n : Nat) : List Char :=
  if n < 10 then [digitChar n]
  else natDigits (n / 10) ++ [digitChar (n % 10)]
decreasing_by exact Nat.div_lt_self (by omega) (by omega)

/-- `str(a)` for a non-negative integer `a`. -/
def natStr (n : Nat) : String := String.mk (natDigits n)

theorem digitChar_isDigit (d : Nat) : (digitChar d).isDigit = true := by
  rcases d with _|_|_|_|_|_|_|_|_|_ <;> rfl

theorem digitVal_digitChar {d : Nat} (h : d < 10) : digitVal (digitChar d) = d := by
  rcases d with _|_|_|_|_|_|_|_|_|d
  · rfl
  · rfl
  · rfl
  · rfl
  · rfl
  · rfl
  · rfl
  · rfl
  · rfl
  · rcases d with _|d
    · rfl
    · omega

theorem digit_not_op {c : Char} (h : c.isDigit = true) : isOpChar c = false := by
  by_cases h1 : c = '+'
  · subst h1; exact absurd h (by decide)
  by_cases h2 : c = '-'
  · subst h2; exact absurd h (by decide)
  simp [isOpChar, h1, h2]

theorem natDigits_ne_nil (n : Nat) : natDigits n ≠ [] := by
  induction n using natDigits.induct with
  | case1 n h => rw [natDigits]; simp [h]
  | case2 n h ih => rw [natDigits]; simp [h]

theorem natDigits_all_digit (n : Nat) : (natDigits n).all Char.isDigit = true := by
  induction n using natDigits.induct with
  | case1 n h => rw [natDigits]; simp [h, digitChar_isDigit]
  | case2 n h ih => rw [natDigits]; simp [h, digitChar_isDigit]; simpa using ih

theorem digitsVal_append_one (l : List Char) (c : Char) :
    digitsVal (l ++ [c]) = 10 * digitsVal l + digitVal c := by
  simp [digitsVal, List.foldl_append]

theorem digitsVal_natDigits (n : Nat) : digitsVal (natDigits n) = n := by
  induction n using natDigits.induct with
  | case1 n h =>
    rw [natDigits]
    simp only [h, if_true]
    simp [digitsVal, digitVal_digitChar h]
  | case2 n h ih =>
    rw [natDigits]
    simp only [h, if_false]
    rw [digitsVal_append_one, ih, digitVal_digitChar (Nat.mod_lt n (by omega))]
    omega

theorem pyInt_digits {l : List Char} (hne : l ≠ []) (hd : l.all Char.isDigit = true) :
    pyInt l = some (Int.ofNat (digitsVal l)) := by
  simp [pyInt, hd, List.isEmpty_iff, hne]

theorem pyInt_natDigits (n : Nat) : pyInt (natDigits n) = some (Int.ofNat n) := by
  rw [pyInt_digits (natDigits_ne_nil n) (natDigits_all_digit n), digitsVal_natDigits]

/-! ## Shape of `megasplit` on well-formed chains -/

theorem megasplit_ne_nil (l : List Char) : megasplit l ≠ [] := by
  induction l with
  | nil => simp [megasplit]
  | cons c cs ih =>
    rw [megasplit]
    by_cases h : isOpChar c = true
    · simp [h]
    · simp only [h]
      rcases hm : megasplit cs with _ | ⟨p, ps⟩
      · simp
      · simp

theorem megasplit_no_op {l : List Char} (h : ∀ c ∈ l, isOpChar c = false) :
    megasplit l = [l] := by
  induction l with
  | nil => rfl
  | cons c cs ih =>
    rw [megasplit]
    have hc : isOpChar c = false := h c (by simp)
    simp only [hc]
    rw [ih (fun x hx => h x (by simp [hx]))]
    simp

theorem megasplit_append_op {l : List Char} {c : Char} (r : List Char)
    (hl : ∀ x ∈ l, isOpChar x = false) (hc : isOpChar c = true) :
    megasplit (l ++ c :: r) = (l ++ [c]) :: megasplit r := by
  induction l with
  | nil => simp [megasplit, hc]
  | cons x l ih =>
    have hx : isOpChar x = false := hl x (by simp)
    rw [List.cons_append, megasplit]
    simp only [hx]
    rw [ih (fun y hy => hl y (by simp [hy]))]
    simp

theorem megasplit_mid_op {c : Char} (l r : List Char) (hc : isOpChar c = true) :
    ∃ pre, pre ≠ [] ∧ megasplit (l ++ c :: r) = pre ++ megasplit r := by
  induction l with
  | nil =>
    refine ⟨[[c]], by simp, ?_⟩
    simp [megasplit, hc]
  | cons x l ih =>
    obtain ⟨pre, hne, heq⟩ := ih
    by_cases hx : isOpChar x = true
    · refine ⟨[x] :: pre, by simp, ?_⟩
      rw [List.cons_append, megasplit]
      simp only [hx, if_true]
      rw [heq]
      simp
    · rcases hp : pre with _ | ⟨p0, pre'⟩
      · exact absurd hp hne
      · refine ⟨(x :: p0) :: pre', by simp, ?_⟩
        rw [List.cons_append, megasplit]
        simp only [hx]
        rw [heq, hp]
        simp

/-! ## Evaluation of well-formed operator chains -/

theorem natDigits_not_op (n : Nat) : ∀ c ∈ natDigits n, isOpChar c = false := by
  intro c hc
  exact digit_not_op (List.all_eq_true.mp (natDigits_all_digit n) c hc)

/-- The operator character of a chain link: `true` is `+`, `false` is `-`. -/
def opCh (b : Bool) : Char := if b then '+' else '-'

/-- The characters of `op1 n1 op2 n2 ...` following the first operand. -/
def chainTail : List (Bool × Nat) → List Char
  | [] => []
  | p :: ps => opCh p.1 :: (natDigits p.2 ++ chainTail ps)

/-- The expression string `a op1 n1 op2 n2 ...` for a parenthesis-free chain
of non-negative integer operands. -/
def chainStr (a : Nat) (ps : List (Bool × Nat)) : String :=
  String.mk (natDigits a ++ chainTail ps)

/-- The pieces `megasplit` cuts a chain into. -/
def chainParts (a : Nat) : List (Bool × Nat) → List (List Char)
  | [] => [natDigits a]
  | p :: ps => (natDigits a ++ [opCh p.1]) :: chainParts p.2 ps

/-- Strict left-to-right accumulation, as the spec describes it: start from
the first operand's value and add or subtract each following operand in
order of appearance. -/
def chainFold (acc : Int) : List (Bool × Nat) → Int
  | [] => acc
  | p :: ps => chainFold (if p.1 then acc + p.2 else acc - p.2) ps

theorem isOpChar_opCh (b : Bool) : isOpChar (opCh b) = true := by
  cases b <;> rfl

theorem firstSeg_no_op {l : List Char} (h : ∀ c ∈ l, isOpChar c = false) :
    firstSeg l = l := by
  refine List.takeWhile_eq_self_iff.mpr ?_
  intro x hx
  simp [h x hx]

theorem firstSeg_append_op {l : List Char} {c : Char}
    (hl : ∀ x ∈ l, isOpChar x = false) (hc : isOpChar c = true) :
    firstSeg (l ++ [c]) = l := by
  induction l with
  | nil => simp [firstSeg, List.takeWhile, hc]
  | cons x l ih =>
    have hx : isOpChar x = false := hl x (by simp)
    rw [List.cons_append, firstSeg, List.takeWhile]
    simp only [hx, Bool.not_false, firstSeg] at *
    rw [ih (fun y hy => hl y (by simp [hy]))]

theorem partValue_natDigits (vars : List (String × Int)) (n : Nat) :
    partValue vars (natDigits n) = some (Int.ofNat n) := by
  simp only [partValue, firstSeg_no_op (natDigits_not_op n), pyInt_natDigits]

theorem partValue_natDigits_op (vars : List (String × Int)) (n : Nat) {c : Char}
    (hc : isOpChar c = true) :
    partValue vars (natDigits n ++ [c]) = some (Int.ofNat n) := by
  simp only [partValue, firstSeg_append_op (natDigits_not_op n) hc, pyInt_natDigits]

theorem nextOpOf_append_op (l : List Char) (b : Bool) :
    nextOpOf (l ++ [opCh b]) = some (if b then NextOp.PLUS else NextOp.MINUS) := by
  cases b <;> simp [nextOpOf, opCh, List.getLast?_concat]

theorem megasplit_chain (ps : List (Bool × Nat)) (a : Nat) :
    megasplit (natDigits a ++ chainTail ps) = chainParts a ps := by
  induction ps generalizing a with
  | nil =>
    rw [chainTail, List.append_nil, chainParts]
    exact megasplit_no_op (natDigits_not_op a)
  | cons p ps ih =>
    rw [chainTail, chainParts,
      megasplit_append_op _ (natDigits_not_op a) (isOpChar_opCh p.1), ih p.2]

theorem calcLoop_chainParts (vars : List (String × Int)) (ps : List (Bool × Nat)) :
    ∀ (a : Nat) (current : Int) (pend : Option NextOp),
      calcLoop vars (chainParts a ps) current pend =
        chainFold (applyOp pend current (Int.ofNat a)) ps := by
  induction ps with
  | nil =>
    intro a current pend
    simp only [chainParts, calcLoop, partValue_natDigits, chainFold]
  | cons p ps ih =>
    intro a current pend
    simp only [chainParts, calcLoop, partValue_natDigits_op vars a (isOpChar_opCh p.1),
      nextOpOf_append_op, ih p.2, chainFold]
    cases hb : p.1 <;> rfl

/-- Early `return 0`: once the loop reaches a part whose value resolution
fails, the whole call yields `0`, whatever came before. -/
theorem calcLoop_fail (vars : List (String × Int)) (pre : List (List Char))
    {part : List Char} (rest : List (List Char)) (h : partValue vars part = none) :
    ∀ (current : Int) (pend : Option NextOp),
      calcLoop vars (pre ++ part :: rest) current pend = 0 := by
  induction pre with
  | nil =>
    intro current pend
    simp only [List.nil_append, calcLoop, h]
  | cons q pre ih =>
    intro current pend
    simp only [List.cons_append, calcLoop]
    cases hq : partValue vars q with
    | none => rfl
    | some v => exact ih _ _

theorem partValue_op_head (vars : List (String × Int)) {c : Char}
    (hc : isOpChar c = true) (r : List Char) :
    partValue vars (c :: r) = none := by
  have h0 : firstSeg (c :: r) = [] := by simp [firstSeg, List.takeWhile, hc]
  simp only [partValue, h0]
  rfl

/-! ## Claims C1-C4, about the soft-fail `calculate` -/

/-- C1: for all non-negative integers `a`, `b`, `calculate` on the decimal
string of `a` with an empty variable environment returns `a`; on `"a+b"` it
returns the exact integer sum `a + b`; and on `"a-b"` the exact integer
difference `a - b`, which may be negative. -/
theorem c1_calculate_literal_add_sub (a b : Nat) :
    calculate [] (natStr a) = (a : Int) ∧
    calculate [] (natStr a ++ "+" ++ natStr b) = (a : Int) + (b : Int) ∧
    calculate [] (natStr a ++ "-" ++ natStr b) = (a : Int) - (b : Int) := by
  refine ⟨?_, ?_, ?_⟩
  · have h : (natStr a).data = natDigits a ++ chainTail [] := by
      simp [natStr, chainTail]
    rw [calculate, h, megasplit_chain, calcLoop_chainParts]
    rfl
  · have h : (natStr a ++ "+" ++ natStr b).data = natDigits a ++ chainTail [(true, b)] := by
      simp [natStr, chainTail, String.data_append, opCh]
    rw [calculate, h, megasplit_chain, calcLoop_chainParts]
    rfl
  · have h : (natStr a ++ "-" ++ natStr b).data = natDigits a ++ chainTail [(false, b)] := by
      simp [natStr, chainTail, String.data_append, opCh]
    rw [calculate, h, megasplit_chain, calcLoop_chainParts]
    rfl

/-- C2: on a parenthesis-free chain of two or more operands, `calculate`
evaluates strictly left to right: the accumulator starts at the first
operand's value and each subsequent `(operator, operand)` pair adds or
subtracts the operand's value in order of appearance; in particular
`calculate("10-2+3", {}) == 11`, that is `(10-2)+3` and not `10-(2+3)`. -/
theorem c2_left_to_right (a : Nat) (ps : List (Bool × Nat)) (hps : ps ≠ []) :
    calculate [] (chainStr a ps) = chainFold (a : Int) ps ∧
    calculate [] "10-2+3" = 11 := by
  constructor
  · rw [calculate]
    show calcLoop [] (megasplit (natDigits a ++ chainTail ps)) 0 none = _
    rw [megasplit_chain, calcLoop_chainParts]
    rfl
  · decide

/-- Witness for C2 at `a = 10`, chain `-2 +3`: the chain string is
`"10-2+3"` and the left-to-right fold gives `(10-2)+3 = 11`. -/
theorem c2_left_to_right_witness :
    calculate [] (chainStr 10 [(false, 2), (true, 3)]) = 11 := by
  rw [(c2_left_to_right 10 [(false, 2), (true, 3)] (by simp)).1]
  decide

/-- C3: during a `calculate` call, an identifier run of length exactly 1
whose character is a key of the variable environment resolves to its mapped
value and the loop continues (so `calculate("1+x", {"x": 5}) == 6`); an
identifier run of any other length, or a single character absent from the
environment, makes the whole call return 0, so `calculate("1+xy", {}) == 0`
and `calculate("1+x", {}) == 0` when `x` is unbound.  (The part's identifier
run is `firstSeg part`, the piece `re.split` cuts off before the trailing
operator.) -/
theorem c3_variable_resolution :
    (∀ (vars : List (String × Int)) (part : List Char) (rest : List (List Char))
        (current : Int) (pend : Option NextOp) (v : Int),
        pyInt (firstSeg part) = none →
        (firstSeg part).length = 1 →
        lookupVar vars (String.mk (firstSeg part)) = some v →
        calcLoop vars (part :: rest) current pend =
          calcLoop vars rest (applyOp pend current v) (nextOpOf part)) ∧
    (∀ (vars : List (String × Int)) (part : List Char) (rest : List (List Char))
        (current : Int) (pend : Option NextOp),
        pyInt (firstSeg part) = none →
        ((firstSeg part).length ≠ 1 ∨ lookupVar vars (String.mk (firstSeg part)) = none) →
        calcLoop vars (part :: rest) current pend = 0) ∧
    calculate [("x", 5)] "1+x" = 6 ∧
    calculate [] "1+xy" = 0 ∧
    calculate [] "1+x" = 0 := by
  refine ⟨?_, ?_, by decide, by decide, by decide⟩
  · intro vars part rest current pend v h1 h2 h3
    simp [calcLoop, partValue, h1, h2, h3]
  · intro vars part rest current pend h1 h2
    rcases h2 with h2 | h2
    · simp [calcLoop, partValue, h1, h2]
    · by_cases hl : (firstSeg part).length = 1
      · simp [calcLoop, partValue, h1, hl, h2]
      · simp [calcLoop, partValue, h1, hl]

/-- Witness for C3: resolving the bound single-letter identifier `x`
continues the loop with its value 5, and the two-letter identifier run `xy`
returns the failure value 0. -/
theorem c3_variable_resolution_witness :
    calcLoop [("x", 5)] [['x']] 0 (some NextOp.PLUS) =
      calcLoop [("x", 5)] [] (applyOp (some NextOp.PLUS) 0 5) (nextOpOf ['x']) ∧
    calcLoop [] [['x', 'y']] 0 none = 0 :=
  ⟨c3_variable_resolution.1 [("x", 5)] ['x'] [] 0 (some NextOp.PLUS) 5 (by decide) (by decide)
      (by decide),
    c3_variable_resolution.2.1 [] ['x', 'y'] [] 0 none (by decide) (Or.inl (by decide))⟩

/-- C4: `calculate` is a total function into the integers — the embedding
needs no exception channel — and each failure class the claim enumerates is
reported as the return value 0, for every variable environment: the empty
string, a string beginning with an operator, and a string with two
consecutive operator characters anywhere all return 0. -/
theorem c4_soft_fail :
    (∀ vars : List (String × Int), calculate vars "" = 0) ∧
    (∀ (vars : List (String × Int)) (s : List Char),
        calculate vars (String.mk ('+' :: s)) = 0 ∧
        calculate vars (String.mk ('-' :: s)) = 0) ∧
    (∀ (vars : List (String × Int)) (s1 s2 : List Char) (c1 c2 : Char),
        isOpChar c1 = true → isOpChar c2 = true →
        calculate vars (String.mk (s1 ++ c1 :: c2 :: s2)) = 0) := by
  refine ⟨fun vars => rfl, fun vars s => ⟨rfl, rfl⟩, ?_⟩
  intro vars s1 s2 c1 c2 h1 h2
  obtain ⟨pre, hne, heq⟩ := megasplit_mid_op s1 (c2 :: s2) h1
  rw [calculate]
  show calcLoop vars (megasplit (s1 ++ c1 :: c2 :: s2)) 0 none = 0
  have h3 : megasplit (c2 :: s2) = [c2] :: megasplit s2 := by
    simp [megasplit, h2]
  rw [heq, h3]
  exact calcLoop_fail vars pre (megasplit s2) (partValue_op_head vars h2 []) 0 none

/-- Witness for C4 at the concrete input `"1+-2"`, which has two consecutive
operator characters. -/
theorem c4_soft_fail_witness :
    calculate [] (String.mk ("1".data ++ '+' :: '-' :: "2".data)) = 0 :=
  c4_soft_fail.2.2 [] "1".data "2".data '+' '-' (by decide) (by decide)

/-! ## The parenthesized-grammar interpreter: `lex`, `parse`,
`BinaryExpression.value`

Source: `interpreter-pattern.py` lines 25-140. -/

/-- The token-kind enum nested in the first `Token` class. -/
inductive TokType where
  | INTEGER
  | PLUS
  | MINUS
  | LPAREN
  | RPAREN
deriving DecidableEq

/-- A token of the parenthesized grammar. -/
structure Token where
  type : TokType
  text : String
deriving DecidableEq

/-- The character-at-a-time worker for `lex` (source lines 43-69).  The
`Option (List Char)` state is the digit accumulator of the inner `for` loop:
`some acc` means the scanner stands inside a run started at a non-operator
character (the run is extended while the next character `isdigit()`).  The
source appends the collected `Integer` token only in the `else: ... break`
arm of the inner loop, so a run that reaches the end of the input never
produces a token — hence the `some _, [] => []` equation.  When the run
stops at a non-digit character the source re-enters the outer `while` loop
at that character (`i` has been advanced to `j`); that re-dispatch is
inlined here so the recursion is structural. -/
def lexGo : Option (List Char) → List Char → List Token
  | none, [] => []
  | some _, [] => []
  | none, c :: rest =>
    if c = '+' then ⟨.PLUS, "+"⟩ :: lexGo none rest
    else if c = '-' then ⟨.MINUS, "-"⟩ :: lexGo none rest
    else if c = '(' then ⟨.LPAREN, "("⟩ :: lexGo none rest
    else if c = ')' then ⟨.RPAREN, ")"⟩ :: lexGo none rest
    else lexGo (some [c]) rest
  | some acc, c :: rest =>
    if c.isDigit then lexGo (some (acc ++ [c])) rest
    else
      ⟨.INTEGER, String.mk acc⟩ ::
        (if c = '+' then ⟨.PLUS, "+"⟩ :: lexGo none rest
        else if c = '-' then ⟨.MINUS, "-"⟩ :: lexGo none rest
        else if c = '(' then ⟨.LPAREN, "("⟩ :: lexGo none rest
        else if c = ')' then ⟨.RPAREN, ")"⟩ :: lexGo none rest
        else lexGo (some [c]) rest)

/-- `lex` (source lines 43-69). -/
def lex (input : String) : List Token := lexGo none input.data

/-- The operator enum nested in `BinaryExpression`. -/
inductive BinType where
  | ADDITION
  | SUBTRACTION
deriving DecidableEq

/-- The object graph `parse` builds: an `Integer` leaf, a
`BinaryExpression` node whose `type` field starts out as Python `None`
(`Option BinType`), or the `None` left inside an unfilled child slot. -/
inductive PExpr where
  | null : PExpr
  | integer : Int → PExpr
  | binary : Option BinType → PExpr → PExpr → PExpr
deriving DecidableEq

/-- The `value` property (source lines 91-97): `Integer.value` is the stored
number; `BinaryExpression.value` adds the children's values when `type` is
`ADDITION` and subtracts them in every other case (the `else` covers
`SUBTRACTION` and the unset `None`).  Reading `value` off a `None` child is
an `AttributeError`, modelled as `none`. -/
def exprValue : PExpr → Option Int
  | .null => none
  | .integer n => some n
  | .binary t l r =>
    match exprValue l, exprValue r with
    | some lv, some rv =>
      some (if t = some BinType.ADDITION then lv + rv else lv - rv)
    | _, _ => none

theorem length_takeWhile_le' (p : α → Bool) (l : List α) :
    (l.takeWhile p).length ≤ l.length := by
  induction l with
  | nil => simp [List.takeWhile]
  | cons x l ih =>
    rw [List.takeWhile]
    cases p x <;> simp <;> omega

theorem length_dropWhile_le' (p : α → Bool) (l : List α) :
    (l.dropWhile p).length ≤ l.length := by
  induction l with
  | nil => simp [List.dropWhile]
  | cons x l ih =>
    rw [List.dropWhile]
    cases p x <;> simp <;> omega

/-- The `while` loop of `parse` (source lines 99-140), with the mutable
`result.type / result.left / result.right` and `have_lhs` threaded.  On an
`Integer` token Python calls `int(token.text)`, which raises on a
non-numeric text — hence the `Option` result.  On `LPAREN` the source scans
`j` forward to the first `RPAREN` (`rest.takeWhile`), recursively parses
`tokens[i+1:j]`, and resumes at `j+1` (`(rest.dropWhile ..).tail`); an
unmatched `LPAREN` makes `j` run to the end, so the sub-parse gets the whole
remainder and the resumption list is empty, exactly as in Python. -/
def parseLoop (ts : List Token) (t : Option BinType) (l r : PExpr) (have_lhs : Bool) :
    Option PExpr :=
  match ts with
  | [] => some (.binary t l r)
  | tok :: rest =>
    match tok.type with
    | .INTEGER =>
      match pyInt tok.text.data with
      | none => none
      | some n =>
        if have_lhs then parseLoop rest t l (.integer n) have_lhs
        else parseLoop rest t (.integer n) r true
    | .PLUS => parseLoop rest (some .ADDITION) l r have_lhs
    | .MINUS => parseLoop rest (some .SUBTRACTION) l r have_lhs
    | .LPAREN =>
      match parseLoop (rest.takeWhile fun x => !(x.type = TokType.RPAREN : Bool))
          none .null .null false with
      | none => none
      | some element =>
        if have_lhs then
          parseLoop ((rest.dropWhile fun x => !(x.type = TokType.RPAREN : Bool)).tail)
            t l element have_lhs
        else
          parseLoop ((rest.dropWhile fun x => !(x.type = TokType.RPAREN : Bool)).tail)
            t element r true
    | .RPAREN => parseLoop rest t l r have_lhs
termination_by ts.length
decreasing_by
  · simp
  · simp
  · simp
  · simp
  · have := length_takeWhile_le' (fun x : Token => !(x.type = TokType.RPAREN : Bool)) rest
    simp
    omega
  · have := length_dropWhile_le' (fun x : Token => !(x.type = TokType.RPAREN : Bool)) rest
    simp [List.length_tail]
    omega
  · have := length_dropWhile_le' (fun x : Token => !(x.type = TokType.RPAREN : Bool)) rest
    simp [List.length_tail]
    omega
  · simp

/-- `parse` (source lines 99-140). -/
def parse (tokens : List Token) : Option PExpr := parseLoop tokens none .null .null false

/-! ## Lexer run lemmas, claims C5 and C6 -/

theorem digit_ne_delims {c : Char} (h : c.isDigit = true) :
    c ≠ '+' ∧ c ≠ '-' ∧ c ≠ '(' ∧ c ≠ ')' := by
  refine ⟨?_, ?_, ?_, ?_⟩ <;> intro he <;> subst he <;> exact absurd h (by decide)

theorem lexGo_enter_run {c : Char} (h : c.isDigit = true) (rest : List Char) :
    lexGo none (c :: rest) = lexGo (some [c]) rest := by
  obtain ⟨h1, h2, h3, h4⟩ := digit_ne_delims h
  simp [lexGo, h1, h2, h3, h4]

theorem lexGo_run_all_digits (acc : List Char) {tail : List Char}
    (h : tail.all Char.isDigit = true) : lexGo (some acc) tail = [] := by
  induction tail generalizing acc with
  | nil => rfl
  | cons c rest ih =>
    have hc : c.isDigit = true := (List.all_eq_true.mp h) c (by simp)
    rw [lexGo]
    simp only [hc, if_true]
    exact ih _ (by simp_all)

theorem lexGo_run_extend (acc : List Char) {tail : List Char}
    (h : tail.all Char.isDigit = true) (rest : List Char) :
    lexGo (some acc) (tail ++ rest) = lexGo (some (acc ++ tail)) rest := by
  induction tail generalizing acc with
  | nil => rw [List.nil_append, List.append_nil]
  | cons c tl ih =>
    have hc : c.isDigit = true := (List.all_eq_true.mp h) c (by simp)
    rw [List.cons_append, lexGo]
    simp only [hc, if_true]
    rw [ih _ (by simp_all)]
    simp

theorem lexGo_run_stop (acc : List Char) {c : Char} (hc : c.isDigit = false)
    (r : List Char) :
    lexGo (some acc) (c :: r) = ⟨TokType.INTEGER, String.mk acc⟩ :: lexGo none (c :: r) := by
  simp [lexGo, hc]

/-- C5 counterexample: `lex("123+4")` does not produce the three claimed
tokens `"123"`, `"+"`, `"4"` — the trailing digit run `4` reaches the end of
the input and its token is never appended. -/
theorem c5_counterexample : ¬((lex "123+4").map Token.text = ["123", "+", "4"]) := by
  decide

/-- C5 amended: `lex` emits exactly one `Integer` token, carrying the full
digit run, for every maximal digit run that is followed by at least one more
character; a maximal digit run that extends to the end of the input emits no
token at all (the whole remaining input lexes to `[]`), and in particular
`lex("123+4")` yields exactly the two tokens `"123"` and `"+"`. -/
theorem c5_amended :
    (∀ (ds : List Char) (c : Char) (r : List Char),
        ds ≠ [] → ds.all Char.isDigit = true → c.isDigit = false →
        lexGo none (ds ++ c :: r) =
          ⟨TokType.INTEGER, String.mk ds⟩ :: lexGo none (c :: r)) ∧
    (∀ ds : List Char, ds.all Char.isDigit = true → lexGo none ds = []) ∧
    lex "123+4" = [⟨TokType.INTEGER, "123"⟩, ⟨TokType.PLUS, "+"⟩] := by
  refine ⟨?_, ?_, by decide⟩
  · intro ds c r hne hall hc
    rcases ds with _ | ⟨d, ds⟩
    · exact absurd rfl hne
    have hd : d.isDigit = true := (List.all_eq_true.mp hall) d (by simp)
    rw [List.cons_append, lexGo_enter_run hd, lexGo_run_extend _ (by simp_all) (c :: r),
      lexGo_run_stop _ hc, List.singleton_append]
  · intro ds hall
    rcases ds with _ | ⟨d, ds⟩
    · rfl
    have hd : d.isDigit = true := (List.all_eq_true.mp hall) d (by simp)
    rw [lexGo_enter_run hd, lexGo_run_all_digits _ (by simp_all)]

/-- Witness for C5 amended: the interior digit run `12` of `"12+3"` emits
one token with the full text, and the all-digit input `"45"` lexes to no
tokens at all. -/
theorem c5_amended_witness :
    lexGo none ("12".data ++ '+' :: "3".data) =
      ⟨TokType.INTEGER, "12"⟩ :: lexGo none ('+' :: "3".data) ∧
    lexGo none "45".data = [] :=
  ⟨c5_amended.1 "12".data '+' "3".data (by decide) (by decide) (by decide),
    c5_amended.2.1 "45".data (by decide)⟩

/-- C6: lexing `"(13+4)-(12+1)"`, parsing the token sequence with the
parenthesized-grammar parser and evaluating the resulting expression tree
yields the integer 4. -/
theorem c6_paren_demo : (parse (lex "(13+4)-(12+1)")).bind exprValue = some 4 := by
  have h : lex "(13+4)-(12+1)" =
      [⟨.LPAREN, "("⟩, ⟨.INTEGER, "13"⟩, ⟨.PLUS, "+"⟩, ⟨.INTEGER, "4"⟩, ⟨.RPAREN, ")"⟩,
        ⟨.MINUS, "-"⟩,
        ⟨.LPAREN, "("⟩, ⟨.INTEGER, "12"⟩, ⟨.PLUS, "+"⟩, ⟨.INTEGER, "1"⟩, ⟨.RPAREN, ")"⟩] := by
    decide
  rw [h, parse]
  simp [parseLoop, pyInt, digitsVal, digitVal, exprValue]

/-! ## Claim C7: the `LPAREN` step of `parse` -/

theorem takeWhile_append_all (p : α → Bool) {l : List α} (r : List α)
    (h : ∀ x ∈ l, p x = true) : (l ++ r).takeWhile p = l ++ r.takeWhile p := by
  induction l with
  | nil => simp
  | cons x l ih =>
    rw [List.cons_append, List.takeWhile, h x (by simp), List.cons_append,
      ih (fun y hy => h y (by simp [hy]))]

theorem dropWhile_append_all (p : α → Bool) {l : List α} (r : List α)
    (h : ∀ x ∈ l, p x = true) : (l ++ r).dropWhile p = r.dropWhile p := by
  induction l with
  | nil => simp
  | cons x l ih =>
    rw [List.cons_append, List.dropWhile, h x (by simp),
      ih (fun y hy => h y (by simp [hy]))]

/-- C7: when `parse` meets a `LeftParen` token, it scans forward to the
first `RightParen` token after it (here: the tokens before `rp` carry no
`RPAREN` kind, whatever else — including further `LeftParen`s — they
contain), recursively parses the tokens strictly between the two
(exclusive of both), places the resulting subtree in the left slot when the
left-hand side is still missing and otherwise in the right slot, exactly as
an `Integer` token would be placed, and resumes the loop right after that
`RightParen`. -/
theorem c7_lparen_first_rparen (pre post : List Token) (t : Option BinType)
    (l r : PExpr) (have_lhs : Bool) (lp rp : Token)
    (hlp : lp.type = TokType.LPAREN) (hrp : rp.type = TokType.RPAREN)
    (hpre : ∀ x ∈ pre, x.type ≠ TokType.RPAREN) :
    parseLoop (lp :: (pre ++ rp :: post)) t l r have_lhs =
      match parseLoop pre none .null .null false with
      | none => none
      | some element =>
        if have_lhs then parseLoop post t l element have_lhs
        else parseLoop post t element r true := by
  have hall : ∀ x ∈ pre, (!(x.type = TokType.RPAREN : Bool)) = true := by
    intro x hx
    simp [hpre x hx]
  have htake : ((pre ++ rp :: post).takeWhile fun x => !(x.type = TokType.RPAREN : Bool)) =
      pre := by
    rw [takeWhile_append_all _ _ hall, List.takeWhile]
    simp [hrp]
  have hdrop : ((pre ++ rp :: post).dropWhile fun x => !(x.type = TokType.RPAREN : Bool)) =
      rp :: post := by
    rw [dropWhile_append_all _ _ hall, List.dropWhile]
    simp [hrp]
  rw [parseLoop.eq_def]
  simp only [hlp, htake, hdrop, List.tail_cons]

/-- Witness for C7 on `( 1 )` with an empty left slot: the subtree parsed
from the inner token list lands in the left slot. -/
theorem c7_lparen_first_rparen_witness :
    parseLoop [⟨TokType.LPAREN, "("⟩, ⟨TokType.INTEGER, "1"⟩, ⟨TokType.RPAREN, ")"⟩]
      none .null .null false =
      match parseLoop [⟨TokType.INTEGER, "1"⟩] none .null .null false with
      | none => none
      | some element =>
        if false then parseLoop [] none .null element false
        else parseLoop [] none element .null true :=
  c7_lparen_first_rparen [⟨TokType.INTEGER, "1"⟩] [] none .null .null false
    ⟨TokType.LPAREN, "("⟩ ⟨TokType.RPAREN, ")"⟩ rfl rfl (by decide)

/-! ## Claim C8: shape of the parse result -/

/-- Whether a child slot still holds Python `None`. -/
def isNullE : PExpr → Bool
  | .null => true
  | _ => false

/-- The spec's invariant, as a predicate on the object graph: every
`BinaryExpression` node has two non-`None` children. -/
def binOpsTwoChildren : PExpr → Bool
  | .null => true
  | .integer _ => true
  | .binary _ l r =>
    !isNullE l && !isNullE r && binOpsTwoChildren l && binOpsTwoChildren r

theorem parseLoop_root_binary :
    ∀ (n : Nat) (ts : List Token) (t : Option BinType) (l r : PExpr) (hlhs : Bool)
      (e : PExpr), ts.length ≤ n → parseLoop ts t l r hlhs = some e →
      ∃ t' l' r', e = PExpr.binary t' l' r' := by
  intro n
  induction n with
  | zero =>
    intro ts t l r hlhs e hlen heq
    have hts : ts = [] := List.eq_nil_of_length_eq_zero (Nat.le_zero.mp hlen)
    subst hts
    simp only [parseLoop, Option.some.injEq] at heq
    exact ⟨t, l, r, heq.symm⟩
  | succ n ih =>
    intro ts t l r hlhs e hlen heq
    rcases ts with _ | ⟨tok, rest⟩
    · simp only [parseLoop, Option.some.injEq] at heq
      exact ⟨t, l, r, heq.symm⟩
    have hrest : rest.length ≤ n := by
      simp only [List.length_cons] at hlen
      omega
    rw [parseLoop.eq_def] at heq
    rcases htok : tok.type
    · simp only [htok] at heq
      rcases hpi : pyInt tok.text.data with _ | v
      · simp only [hpi] at heq
        exact Option.noConfusion heq
      · simp only [hpi] at heq
        cases hlhs
        · simp only [Bool.false_eq_true, if_false] at heq
          exact ih rest _ _ _ _ _ hrest heq
        · simp only [if_true] at heq
          exact ih rest _ _ _ _ _ hrest heq
    · simp only [htok] at heq
      exact ih rest _ _ _ _ _ hrest heq
    · simp only [htok] at heq
      exact ih rest _ _ _ _ _ hrest heq
    · simp only [htok] at heq
      have hafter :
          ((rest.dropWhile fun x => !(x.type = TokType.RPAREN : Bool)).tail).length ≤ n := by
        have := length_dropWhile_le' (fun x : Token => !(x.type = TokType.RPAREN : Bool)) rest
        rw [List.length_tail]
        omega
      rcases hin : parseLoop (rest.takeWhile fun x => !(x.type = TokType.RPAREN : Bool))
          none .null .null false with _ | el
      · simp only [hin] at heq
        exact Option.noConfusion heq
      · simp only [hin] at heq
        cases hlhs
        · simp only [Bool.false_eq_true, if_false] at heq
          exact ih _ _ _ _ _ _ hafter heq
        · simp only [if_true] at heq
          exact ih _ _ _ _ _ _ hafter heq
    · simp only [htok] at heq
      exact ih rest _ _ _ _ _ hrest heq

/-- C8 counterexample: on the well-formed token sequence consisting of the
single `Integer` token `5`, `parse` returns a `BinaryExpression` root whose
right child is still `None`, so the claimed invariant — every `BinaryOp` has
exactly two non-null children — fails on the returned tree. -/
theorem c8_counterexample :
    parse [⟨TokType.INTEGER, "5"⟩] = some (.binary none (.integer 5) .null) ∧
    binOpsTwoChildren (.binary none (.integer 5) .null) = false := by
  constructor
  · have h5 : pyInt "5".data = some 5 := by decide
    rw [parse]
    simp [parseLoop, h5]
  · decide

/-- C8 amended: whenever `parse` returns at all, the root is a single
`BinaryExpression` node (never an `Integer` leaf); for a sequence consisting
of one `Integer` token the literal is placed in the left slot and the right
slot remains `None`, so the two-non-null-children invariant fails there; for
a two-operand sequence `Integer op Integer` the root does have exactly two
non-null children. -/
theorem c8_amended :
    (∀ (tokens : List Token) (e : PExpr), parse tokens = some e →
        ∃ t l r, e = PExpr.binary t l r) ∧
    (∀ (s : String) (v : Int), pyInt s.data = some v →
        parse [⟨TokType.INTEGER, s⟩] = some (.binary none (.integer v) .null) ∧
        binOpsTwoChildren (.binary none (.integer v) .null) = false) ∧
    (∀ (s1 s2 : String) (v1 v2 : Int) (op : Token),
        pyInt s1.data = some v1 → pyInt s2.data = some v2 →
        (op.type = TokType.PLUS →
          parse [⟨TokType.INTEGER, s1⟩, op, ⟨TokType.INTEGER, s2⟩] =
            some (.binary (some BinType.ADDITION) (.integer v1) (.integer v2))) ∧
        (op.type = TokType.MINUS →
          parse [⟨TokType.INTEGER, s1⟩, op, ⟨TokType.INTEGER, s2⟩] =
            some (.binary (some BinType.SUBTRACTION) (.integer v1) (.integer v2))) ∧
        binOpsTwoChildren (.binary (some BinType.ADDITION) (.integer v1) (.integer v2)) =
          true) := by
  refine ⟨?_, ?_, ?_⟩
  · intro tokens e heq
    exact parseLoop_root_binary tokens.length tokens none .null .null false e
      (Nat.le_refl _) heq
  · intro s v hv
    refine ⟨?_, rfl⟩
    rw [parse]
    simp [parseLoop, hv]
  · intro s1 s2 v1 v2 op h1 h2
    refine ⟨?_, ?_, rfl⟩
    · intro hop
      rw [parse]
      simp [parseLoop, h1, h2, hop]
    · intro hop
      rw [parse]
      simp [parseLoop, h1, h2, hop]

/-- Witness for C8 amended: the single-token sequence `5` roots at a
`BinaryExpression` with a `None` right child, while `1 + 2` roots at one
with both children filled. -/
theorem c8_amended_witness :
    parse [⟨TokType.INTEGER, "5"⟩] = some (.binary none (.integer 5) .null) ∧
    parse [⟨TokType.INTEGER, "1"⟩, ⟨TokType.PLUS, "+"⟩, ⟨TokType.INTEGER, "2"⟩] =
      some (.binary (some BinType.ADDITION) (.integer 1) (.integer 2)) :=
  ⟨(c8_amended.2.1 "5" 5 (by decide)).1,
    (c8_amended.2.2 "1" "2" 1 2 ⟨TokType.PLUS, "+"⟩ (by decide) (by decide)).1 rfl⟩

/-! ## The first, token-list `ExpressionProcessor.calculate`

Source: `interpreter-pattern.py` lines 170-226 (the exercise's first
solution, shadowed later in the same file by the regex-split one). -/

/-- The token-kind enum of the exercise's `Token` class. -/
inductive ExTokType where
  | INTEGER
  | PLUS
  | MINUS
deriving DecidableEq

/-- The `text` field of an exercise token.  For a resolved variable the
source stores the dict's *integer value* itself as the text
(`Token(self.variables[''.join(name)], Token.Type.INTEGER)`, line 214), so
the field holds either a string or an integer. -/
inductive ExText where
  | str : String → ExText
  | ival : Int → ExText
deriving DecidableEq

/-- A token of the exercise's first solution. -/
structure ExToken where
  text : ExText
  token_type : ExTokType
deriving DecidableEq

/-- `int(text)` on an exercise token's text: on a string as `pyInt`, on an
already-integer text the identity (`int(5) == 5`). -/
def pyIntOfText : ExText → Option Int
  | .str s => pyInt s.data
  | .ival n => some n

/-- The scanning state of the tokenizing `while` loop (source lines
188-217): between runs, inside a digit run (`digits`), or inside a variable
name run (`name`). -/
inductive ExMode where
  | scan
  | drun : List Char → ExMode
  | nrun : List Char → ExMode

/-- The tokenizing `while` loop of the first `calculate` (source lines
188-217).  `Sum.inl 0` is the early `return 0` taken when a name run stops
at an operator or digit and the name is not a key of `variables`.  As in the
source, a digit or name run that reaches the end of the input appends no
token and performs no lookup (the inner `for` ends without `break`; the
outer loop then re-enters the same branch on each remaining character of the
run, never appending anything).  When a run stops at a character, the source
re-dispatches the outer loop on that character (`i = j - 1; ...; i += 1`);
that re-dispatch is inlined here so the recursion is structural. -/
def tokenize1 (vars : List (String × Int)) :
    ExMode → List Char → List ExToken → Sum Int (List ExToken)
  | .scan, [], toks => .inr toks
  | .drun _, [], toks => .inr toks
  | .nrun _, [], toks => .inr toks
  | .scan, c :: rest, toks =>
    if c = '+' then tokenize1 vars .scan rest (toks ++ [⟨.str "+", .PLUS⟩])
    else if c = '-' then tokenize1 vars .scan rest (toks ++ [⟨.str "-", .MINUS⟩])
    else if c.isDigit then tokenize1 vars (.drun [c]) rest toks
    else tokenize1 vars (.nrun [c]) rest toks
  | .drun acc, c :: rest, toks =>
    if c.isDigit then tokenize1 vars (.drun (acc ++ [c])) rest toks
    else if c = '+' then
      tokenize1 vars .scan rest
        (toks ++ [⟨.str (String.mk acc), .INTEGER⟩, ⟨.str "+", .PLUS⟩])
    else if c = '-' then
      tokenize1 vars .scan rest
        (toks ++ [⟨.str (String.mk acc), .INTEGER⟩, ⟨.str "-", .MINUS⟩])
    else tokenize1 vars (.nrun [c]) rest (toks ++ [⟨.str (String.mk acc), .INTEGER⟩])
  | .nrun acc, c :: rest, toks =>
    if c = '+' || c = '-' || c.isDigit then
      match lookupVar vars (String.mk acc) with
      | none => .inl 0
      | some v =>
        if c = '+' then
          tokenize1 vars .scan rest
            (toks ++ [⟨.ival v, .INTEGER⟩, ⟨.str "+", .PLUS⟩])
        else if c = '-' then
          tokenize1 vars .scan rest
            (toks ++ [⟨.ival v, .INTEGER⟩, ⟨.str "-", .MINUS⟩])
        else tokenize1 vars (.drun [c]) rest (toks ++ [⟨.ival v, .INTEGER⟩])
    else tokenize1 vars (.nrun (acc ++ [c])) rest toks

/-- The evaluation loop of the first `calculate` (source lines 219-225)
compares `tokens[i].Type` — the nested class `Token.Type` itself, reached
through the instance — with the enum member `Token.Type.PLUS`
(resp. `.MINUS`).  A class object never equals one of its members, so both
comparisons are always `False`; this constant models that comparison. -/
def classEqMember (m : ExTokType) : Bool := false

/-- The `while` loop over `tokens[1:]` stepping by 2 (source lines 219-225).
`none` models an uncaught exception: had a comparison ever succeeded, the
branch would read `tokens[i+1]` (an `IndexError` past the end) and
`int(...)` it (a possible `ValueError`). -/
def eval1Loop (value : Int) : List ExToken → Option Int
  | [] => some value
  | [_] =>
    if classEqMember ExTokType.PLUS then none
    else if classEqMember ExTokType.MINUS then none
    else some value
  | _ :: t2 :: rest =>
    if classEqMember ExTokType.PLUS then
      (pyIntOfText t2.text).bind fun m => eval1Loop (value + m) rest
    else if classEqMember ExTokType.MINUS then
      (pyIntOfText t2.text).bind fun m => eval1Loop (value - m) rest
    else eval1Loop value rest

/-- The first, token-list `ExpressionProcessor.calculate` (source lines
187-226).  `none` models an uncaught exception: `int(tokens[0].text)` is an
`IndexError` when the token list is empty and a `ValueError` when the first
token's text is not numeric. -/
def calc1 (vars : List (String × Int)) (expression : String) : Option Int :=
  match tokenize1 vars .scan expression.data [] with
  | .inl z => some z
  | .inr [] => none
  | .inr (t0 :: rest) =>
    match pyIntOfText t0.text with
    | none => none
    | some v => eval1Loop v rest

/-- C9: the two near-duplicate `calculate` implementations do NOT return the
same result.  On `"1+2"` with an empty environment the token-list variant
returns 1 — its tokenizer never appends the trailing `Integer` token `2`
(the inner `for` loop ends without `break`), and its evaluation loop
compares `tokens[i].Type`, the nested class, so no operator is ever applied
— while the regex-split variant returns 3. -/
theorem c9_variants_disagree :
    calc1 [] "1+2" = some 1 ∧ calculate [] "1+2" = 3 ∧
    calc1 [] "1+2" ≠ some (calculate [] "1+2") := by
  refine ⟨by decide, by decide, by decide⟩

/-! ## Claim C10: the `value` property's default arm -/

/-- C10: a `BinaryExpression` whose `type` is anything other than
`ADDITION` — including the unset initial `None` — evaluates as a
subtraction, `left.value - right.value`; addition is applied only when the
`type` is exactly `ADDITION`. -/
theorem c10_value_defaults_to_subtraction :
    (∀ (t : Option BinType) (l r : PExpr) (lv rv : Int),
        t ≠ some BinType.ADDITION → exprValue l = some lv → exprValue r = some rv →
        exprValue (PExpr.binary t l r) = some (lv - rv)) ∧
    (∀ (l r : PExpr) (lv rv : Int), exprValue l = some lv → exprValue r = some rv →
        exprValue (PExpr.binary (some BinType.ADDITION) l r) = some (lv + rv)) := by
  constructor
  · intro t l r lv rv ht hl hr
    simp [exprValue, hl, hr, ht]
  · intro l r lv rv hl hr
    simp [exprValue, hl, hr]

/-- Witness for C10: with `type` unset (`None`) and with
`type = SUBTRACTION` the node computes `5 - 2 = 3`; with `type = ADDITION`
it computes `5 + 2 = 7`. -/
theorem c10_value_defaults_to_subtraction_witness :
    exprValue (PExpr.binary none (.integer 5) (.integer 2)) = some 3 ∧
    exprValue (PExpr.binary (some BinType.SUBTRACTION) (.integer 5) (.integer 2)) =
      some 3 ∧
    exprValue (PExpr.binary (some BinType.ADDITION) (.integer 5) (.integer 2)) = some 7 :=
  ⟨c10_value_defaults_to_subtraction.1 none (.integer 5) (.integer 2) 5 2 (by decide)
      rfl rfl,
    c10_value_defaults_to_subtraction.1 (some BinType.SUBTRACTION) (.integer 5)
      (.integer 2) 5 2 (by decide) rfl rfl,
    c10_value_defaults_to_subtraction.2 (.integer 5) (.integer 2) 5 2 rfl rfl⟩

end Interp
